import Mathlib

/-!
# Verification of the pre-commit config reconciliation engine

A shallow embedding of `src/repoma/utilities/precommit.py` (together with the
private insertion-index routine of `src/repoma/check_dev_files/editorconfig.py`)
and proofs about it.

Modelling conventions:

* A YAML repo entry (a `CommentedMap` with keys `repo`, optional `rev`, `hooks`,
  and possibly further keys) is the structure `RepoDef`; further keys are kept
  generically in `extra`.  A hook map is `Hook` (key `id` plus further keys in
  `extra`).
* The parsed `.pre-commit-config.yaml` is `Doc`: the `repos` sequence plus the
  set of sequence indices that carry a "blank line before" comment directive
  (ruamel's `ca.items`; a directive at index `k` serialises as a blank line
  before entry `k`).  `CommentedSeq.insert` shifts the directives at indices
  `≥ idx` up by one, which `shiftBlanks` reproduces.
* The file system is `Option Doc`: `none` means the config file does not exist.
* Raising `PrecommitError` after a write is modelled by returning a
  `Correction` value alongside the new file-system state.
* Python's `re.search` is an external library; the engine functions take the
  match predicate `m : String → String → Bool` (pattern, url) as a parameter.
  `reSearchLit` instantiates it for metacharacter-free patterns, where
  `re.search` is exactly substring occurrence.
* Python string comparison (`<`, `<=` by code point) is `pyStrLt` / `pyStrLe`;
  `str.lower` is `pyLower` (the ASCII fragment; the hook ids involved are
  ASCII).
-/

/-- One pre-commit hook definition: the `id` key plus any further keys,
kept generically as a key-value list (`src/repoma/utilities/precommit.py`,
hook maps inside a repo definition). -/
structure Hook where
  id : String
  extra : List (String × String) := []
deriving DecidableEq, Repr, Inhabited

/-- One pre-commit repo definition: keys `repo`, optional `rev`, `hooks`, and
any further keys in `extra`.  `rev = none` models an absent `rev` key. -/
structure RepoDef where
  repo : String
  rev : Option String := none
  hooks : List Hook
  extra : List (String × String) := []
deriving DecidableEq, Repr, Inhabited

/-- The parsed `.pre-commit-config.yaml`: the `repos` sequence together with
the indices carrying a blank-line-before comment directive (ruamel `ca.items`
with `before="\n"`). -/
structure Doc where
  repos : List RepoDef
  blanks : List Nat := []
deriving DecidableEq, Repr, Inhabited

/-- The `PrecommitError` raised after a write: `added` for the insertion branch,
`updated` for the replacement branch, each carrying the hook id named in the
message. -/
inductive Correction where
  | added (hook_id : String)
  | updated (hook_id : String)
deriving DecidableEq, Repr

/-- Python code-point comparison of character lists (`str.__lt__`). -/
def charListLt : List Char → List Char → Bool
  | _, [] => false
  | [], _ :: _ => true
  | a :: as, b :: bs =>
    if a < b then true
    else if b < a then false
    else charListLt as bs

/-- Python `a < b` on strings: lexicographic by code point. -/
def pyStrLt (a b : String) : Bool := charListLt a.data b.data

/-- Python `a <= b` on strings. -/
def pyStrLe (a b : String) : Bool := pyStrLt a b || a == b

/-- Python `str.lower` on one character (ASCII fragment; the hook ids the code
compares are ASCII). -/
def pyCharLower (c : Char) : Char :=
  if 'A' ≤ c ∧ c ≤ 'Z' then Char.ofNat (c.toNat + 32) else c

/-- Python `str.lower` (ASCII fragment). -/
def pyLower (s : String) : String := ⟨s.data.map pyCharLower⟩

/-- `p` is a prefix of the second list (step of literal `re.search`). -/
def isPrefixOfB : List Char → List Char → Bool
  | [], _ => true
  | _ :: _, [] => false
  | a :: as, b :: bs => a == b && isPrefixOfB as bs

/-- `p` occurs (contiguously) somewhere in the second list. -/
def substrAux (p : List Char) : List Char → Bool
  | [] => isPrefixOfB p []
  | c :: cs => isPrefixOfB p (c :: cs) || substrAux p cs

/-- Model of Python `re.search(pattern, url)` for patterns without regex
metacharacters: the pattern occurs in `url` as a substring. -/
def reSearchLit (pattern url : String) : Bool := substrAux pattern.data url.data

/-- Python `list.insert(idx, v)`: insert at `idx`, clamping to the end. -/
def insertAt {α : Type} : List α → Nat → α → List α
  | xs, 0, v => v :: xs
  | [], _ + 1, v => [v]
  | x :: xs, n + 1, v => x :: insertAt xs n v

/-- `CommentedSeq.insert` re-indexing of comment directives: directives at
indices `≥ idx` move up by one. -/
def shiftBlanks (blanks : List Nat) (idx : Nat) : List Nat :=
  blanks.map fun b => if idx ≤ b then b + 1 else b

/-- `yaml_set_comment_before_after_key(k, before="\n")`: record a blank-line
directive at index `k`. -/
def setBlank (blanks : List Nat) (k : Nat) : List Nat :=
  if k ∈ blanks then blanks else k :: blanks

/-- Python `seq[i]` (the callers only index positions that exist; the default
is never reached in the verified paths). -/
def pyGet {α : Type} [Inhabited α] : List α → Nat → α
  | [], _ => default
  | x :: _, 0 => x
  | _ :: xs, n + 1 => pyGet xs n

/-- `expected_repo_def["hooks"][0]["id"]` (callers pass single-hook
descriptors, so the list is never empty there). -/
def hooksHeadId (hooks : List Hook) : String := (hooks.head?.map Hook.id).getD ""

/-- `find_repo` (precommit.py line 31): scan `config["repos"]` in order and
return the first entry whose `repo` URL matches the search pattern, together
with its index. -/
def find_repo (m : String → String → Bool) (search_pattern : String) :
    List RepoDef → Option (Nat × RepoDef)
  | [] => none
  | r :: rs =>
    if m search_pattern r.repo then some (0, r)
    else (find_repo m search_pattern rs).map fun ir => (ir.1 + 1, ir.2)

/-- `_determine_expected_repo_index` (precommit.py line 87): first index whose
entry has exactly one hook and whose hook id is `≥` the expected hook id after
lowercasing; the length of the list if no entry qualifies. -/
def _determine_expected_repo_index (hook_id : String) : List RepoDef → Nat
  | [] => 0
  | r :: rs =>
    if r.hooks.length ≠ 1 then 1 + _determine_expected_repo_index hook_id rs
    else if pyStrLe (pyLower hook_id) (pyLower (hooksHeadId r.hooks)) then 0
    else 1 + _determine_expected_repo_index hook_id rs

/-- `remove_rev` inside `_is_equivalent_repo` (precommit.py line 99): drop the
`rev` key. -/
def remove_rev (r : RepoDef) : RepoDef := { r with rev := none }

/-- `_is_equivalent_repo` (precommit.py line 98): equality after removing the
`rev` key from both sides. -/
def _is_equivalent_repo (expected existing : RepoDef) : Bool :=
  decide (remove_rev expected = remove_rev existing)

/-- Lines 58-59: `if "rev" not in expected_repo_def:
expected_repo_def.insert(1, "rev", DoubleQuotedScalarString(""))` — give the
expected definition an explicit empty `rev` placeholder if the key is
absent. -/
def ensure_rev_placeholder (e : RepoDef) : RepoDef :=
  if e.rev = none then { e with rev := some "" } else e

/-- Lines 77-79: `existing_rev = existing_hook.get("rev"); if existing_rev is
not None: expected_repo_def.insert(1, "rev", PlainScalarString(existing_rev))`
— copy the existing entry's `rev` onto the expected definition whenever the
key is present (even when its value is the empty string). -/
def copy_rev (existing expected : RepoDef) : RepoDef :=
  match existing.rev with
  | some existing_rev => { expected with rev := some existing_rev }
  | none => expected

/-- `update_single_hook_precommit_repo` (precommit.py line 43).  Input: the
file system (`none` = config file absent) and the expected repo definition;
output: the new file system and the raised correction, if any. -/
def update_single_hook_precommit_repo (m : String → String → Bool)
    (fs : Option Doc) (expected_repo_def : RepoDef) :
    Option Doc × Option Correction :=
  match fs with
  | none => (none, none)
  | some config =>
    let repo_url := expected_repo_def.repo
    let hook_id := hooksHeadId expected_repo_def.hooks
    match find_repo m repo_url config.repos with
    | none =>
      let expected1 := ensure_rev_placeholder expected_repo_def
      let idx := _determine_expected_repo_index hook_id config.repos
      let repos1 := insertAt config.repos idx expected1
      let blanks1 := shiftBlanks config.blanks idx
      let k := if idx + 1 = repos1.length then idx else idx + 1
      (some { repos := repos1, blanks := setBlank blanks1 k },
       some (.added hook_id))
    | some (idx, existing_hook) =>
      if _is_equivalent_repo existing_hook expected_repo_def then
        (some config, none)
      else
        let expected1 := copy_rev existing_hook expected_repo_def
        let repos1 := config.repos.set idx expected1
        (some { repos := repos1, blanks := setBlank config.blanks (idx + 1) },
         some (.updated hook_id))

/-- `__find_hook_idx` (precommit.py line 141): index of the first hook with the
given id. -/
def __find_hook_idx (hook_id : String) : List Hook → Option Nat
  | [] => none
  | h :: hs =>
    if h.id = hook_id then some 0
    else (__find_hook_idx hook_id hs).map (· + 1)

/-- `__determine_expected_hook_idx` (precommit.py line 150): first index whose
hook id is strictly greater than the given id — raw, case-sensitive
comparison. -/
def __determine_expected_hook_idx (hook_id : String) : List Hook → Nat
  | [] => 0
  | h :: hs =>
    if pyStrLt hook_id h.id then 0
    else 1 + __determine_expected_hook_idx hook_id hs

/-- `update_precommit_hook` (precommit.py line 107): reconcile one hook inside
an already-present repo entry. -/
def update_precommit_hook (m : String → String → Bool) (fs : Option Doc)
    (repo_url : String) (expected_hook : Hook) :
    Option Doc × Option Correction :=
  match fs with
  | none => (none, none)
  | some config =>
    match find_repo m repo_url config.repos with
    | none => (some config, none)
    | some (repo_idx, repo) =>
      let hooks := repo.hooks
      match __find_hook_idx expected_hook.id hooks with
      | none =>
        let hook_idx := __determine_expected_hook_idx expected_hook.id hooks
        let hooks1 := insertAt hooks hook_idx expected_hook
        let repos1 := config.repos.set repo_idx { repo with hooks := hooks1 }
        let blanks1 :=
          if hook_idx = hooks1.length - 1 then
            setBlank config.blanks (repo_idx + 1)
          else config.blanks
        (some { repos := repos1, blanks := blanks1 },
         some (.added expected_hook.id))
      | some hook_idx =>
        if pyGet hooks hook_idx = expected_hook then (some config, none)
        else
          let hooks1 := hooks.set hook_idx expected_hook
          let repos1 := config.repos.set repo_idx { repo with hooks := hooks1 }
          (some { repos := repos1, blanks := config.blanks },
           some (.updated expected_hook.id))

/-- The hook id of the editorconfig checker
(`src/repoma/check_dev_files/editorconfig.py` line 18). -/
def editorconfigHookId : String := "editorconfig-checker"

/-- `__determine_expected_index` (editorconfig.py line 78): like
`_determine_expected_repo_index` for the fixed id `editorconfig-checker`, but
WITHOUT the single-hook guard: every entry's first hook id is compared. -/
def __determine_expected_index : List RepoDef → Nat
  | [] => 0
  | r :: rs =>
    if pyStrLe (pyLower editorconfigHookId) (pyLower (hooksHeadId r.hooks)) then 0
    else 1 + __determine_expected_index rs

/-! ## Basic lemmas about the list-level operations -/

theorem insertAt_length {α : Type} (l : List α) (i : Nat) (v : α) :
    (insertAt l i v).length = l.length + 1 := by
  induction l generalizing i with
  | nil => cases i <;> rfl
  | cons x xs ih =>
    cases i with
    | zero => rfl
    | succ n => simpa [insertAt] using ih n

theorem pyGet_insertAt {α : Type} [Inhabited α] (l : List α) (i : Nat) (v : α)
    (hi : i ≤ l.length) : pyGet (insertAt l i v) i = v := by
  induction l generalizing i with
  | nil =>
    cases i with
    | zero => rfl
    | succ n => simp at hi
  | cons x xs ih =>
    cases i with
    | zero => rfl
    | succ n => exact ih n (Nat.le_of_succ_le_succ hi)

theorem pyGet_set {α : Type} [Inhabited α] (l : List α) (i : Nat) (v : α)
    (hi : i < l.length) : pyGet (l.set i v) i = v := by
  induction l generalizing i with
  | nil => simp at hi
  | cons x xs ih =>
    cases i with
    | zero => rfl
    | succ n => exact ih n (Nat.lt_of_succ_lt_succ hi)

theorem getElem?_set_self {α : Type} (l : List α) (i : Nat) (v : α)
    (hi : i < l.length) : (l.set i v)[i]? = some v := by
  induction l generalizing i with
  | nil => simp at hi
  | cons x xs ih =>
    cases i with
    | zero => simp
    | succ n => simpa using ih n (Nat.lt_of_succ_lt_succ hi)

theorem getElem?_insertAt_self {α : Type} (l : List α) (i : Nat) (v : α)
    (hi : i ≤ l.length) : (insertAt l i v)[i]? = some v := by
  induction l generalizing i with
  | nil =>
    cases i with
    | zero => rfl
    | succ n => simp at hi
  | cons x xs ih =>
    cases i with
    | zero => rfl
    | succ n => simpa [insertAt] using ih n (Nat.le_of_succ_le_succ hi)

theorem mem_setBlank_self (b : List Nat) (k : Nat) : k ∈ setBlank b k := by
  unfold setBlank
  split
  · assumption
  · exact List.mem_cons_self k b

/-! ## Lemmas about `find_repo` -/

theorem find_repo_eq_none_iff (m : String → String → Bool) (p : String)
    (l : List RepoDef) :
    find_repo m p l = none ↔ ∀ r ∈ l, m p r.repo = false := by
  induction l with
  | nil => simp [find_repo]
  | cons x xs ih =>
    by_cases hx : m p x.repo = true
    · simp [find_repo, hx]
    · have hx' : m p x.repo = false := by simpa using hx
      simp [find_repo, hx', Option.map_eq_none', ih]

theorem find_repo_eq_some_iff (m : String → String → Bool) (p : String)
    (l : List RepoDef) (i : Nat) (r : RepoDef) :
    find_repo m p l = some (i, r) ↔
      (l[i]? = some r ∧ m p r.repo = true ∧
        ∀ j e, j < i → l[j]? = some e → m p e.repo = false) := by
  induction l generalizing i with
  | nil => simp [find_repo]
  | cons x xs ih =>
    by_cases hx : m p x.repo = true
    · simp only [find_repo, hx, if_true]
      cases i with
      | zero =>
        simp only [List.getElem?_cons_zero, Option.some.injEq, Prod.mk.injEq]
        constructor
        · rintro ⟨-, rfl⟩
          exact ⟨rfl, hx, fun j e hj _ => absurd hj (Nat.not_lt_zero j)⟩
        · rintro ⟨rfl, -, -⟩
          exact ⟨trivial, rfl⟩
      | succ n =>
        simp only [Option.some.injEq, Prod.mk.injEq]
        constructor
        · rintro ⟨h, -⟩
          exact absurd h.symm (Nat.succ_ne_zero n)
        · rintro ⟨-, -, hall⟩
          have := hall 0 x (Nat.succ_pos n) (by simp)
          rw [hx] at this
          cases this
    · have hx' : m p x.repo = false := by simpa using hx
      simp only [find_repo, hx', Bool.false_eq_true, if_false]
      cases i with
      | zero =>
        simp only [Option.map_eq_some', List.getElem?_cons_zero,
          Option.some.injEq, Prod.mk.injEq]
        constructor
        · rintro ⟨⟨k, e⟩, -, hk, -⟩
          exact absurd hk (Nat.succ_ne_zero k)
        · rintro ⟨rfl, hm, -⟩
          rw [hx'] at hm
          cases hm
      | succ n =>
        rw [Option.map_eq_some']
        constructor
        · rintro ⟨⟨k, e⟩, hfind, hke⟩
          obtain ⟨hk, he⟩ := Prod.mk.injEq .. ▸ hke
          rw [show k = n from by omega, show e = r from he] at hfind
          obtain ⟨hget, hm, hall⟩ := (ih n).mp hfind
          refine ⟨by simpa using hget, hm, ?_⟩
          intro j e hj hgetj
          cases j with
          | zero =>
            simp only [List.getElem?_cons_zero, Option.some.injEq] at hgetj
            subst hgetj
            exact hx'
          | succ jj =>
            simp only [List.getElem?_cons_succ] at hgetj
            exact hall jj e (Nat.lt_of_succ_lt_succ hj) hgetj
        · rintro ⟨hget, hm, hall⟩
          refine ⟨(n, r), (ih n).mpr ⟨by simpa using hget, hm, ?_⟩, rfl⟩
          intro j e hj hgetj
          exact hall (j + 1) e (Nat.succ_lt_succ hj) (by simpa using hgetj)

theorem find_repo_insertAt (m : String → String → Bool) (p : String)
    (l : List RepoDef) (i : Nat) (v : RepoDef)
    (hnone : find_repo m p l = none) (hv : m p v.repo = true)
    (hi : i ≤ l.length) :
    find_repo m p (insertAt l i v) = some (i, v) := by
  induction l generalizing i with
  | nil =>
    cases i with
    | zero => simp [insertAt, find_repo, hv]
    | succ n => simp at hi
  | cons x xs ih =>
    have hx : m p x.repo = false :=
      (find_repo_eq_none_iff m p (x :: xs)).mp hnone x (List.mem_cons_self x xs)
    have hxs : find_repo m p xs = none := by
      rw [find_repo_eq_none_iff]
      intro e he
      exact (find_repo_eq_none_iff m p (x :: xs)).mp hnone e (List.mem_cons_of_mem x he)
    cases i with
    | zero => simp [insertAt, find_repo, hv]
    | succ n =>
      have : insertAt (x :: xs) (n + 1) v = x :: insertAt xs n v := rfl
      rw [this, find_repo, ih n hxs (Nat.le_of_succ_le_succ hi), hx]
      simp

theorem find_repo_set (m : String → String → Bool) (p : String)
    (l : List RepoDef) (i : Nat) (e v : RepoDef)
    (hfind : find_repo m p l = some (i, e)) (hv : m p v.repo = true) :
    find_repo m p (l.set i v) = some (i, v) := by
  induction l generalizing i with
  | nil => simp [find_repo] at hfind
  | cons x xs ih =>
    by_cases hx : m p x.repo = true
    · rw [find_repo, if_pos hx] at hfind
      obtain ⟨hi, -⟩ := Prod.mk.injEq .. ▸ Option.some.inj hfind
      subst hi
      simp [find_repo, hv]
    · have hx' : m p x.repo = false := by simpa using hx
      rw [find_repo, hx'] at hfind
      simp only [Bool.false_eq_true, if_false] at hfind
      rw [Option.map_eq_some'] at hfind
      obtain ⟨⟨k, ee⟩, hfindxs, hke⟩ := hfind
      obtain ⟨hk, hee⟩ := Prod.mk.injEq .. ▸ hke
      cases i with
      | zero => exact absurd hk (Nat.succ_ne_zero k)
      | succ n =>
        rw [show k = n from by omega, show ee = e from hee] at hfindxs
        have : (x :: xs).set (n + 1) v = x :: xs.set n v := rfl
        rw [this, find_repo, ih n hfindxs, hx']
        simp

/-! ## Lemmas about `__find_hook_idx` -/

theorem find_hook_idx_eq_none_iff (hid : String) (l : List Hook) :
    __find_hook_idx hid l = none ↔ ∀ h ∈ l, h.id ≠ hid := by
  induction l with
  | nil => simp [__find_hook_idx]
  | cons x xs ih =>
    by_cases hx : x.id = hid
    · simp [__find_hook_idx, hx]
    · simp [__find_hook_idx, hx, Option.map_eq_none', ih]

theorem find_hook_idx_lt_length (hid : String) (l : List Hook) (i : Nat)
    (hfind : __find_hook_idx hid l = some i) : i < l.length := by
  induction l generalizing i with
  | nil => simp [__find_hook_idx] at hfind
  | cons x xs ih =>
    by_cases hx : x.id = hid
    · rw [__find_hook_idx, if_pos hx] at hfind
      obtain rfl := Option.some.inj hfind
      simp
    · rw [__find_hook_idx, if_neg hx, Option.map_eq_some'] at hfind
      obtain ⟨k, hk, rfl⟩ := hfind
      simpa using ih k hk

theorem find_hook_idx_insertAt (hid : String) (l : List Hook) (i : Nat) (h : Hook)
    (hnone : __find_hook_idx hid l = none) (hh : h.id = hid) (hi : i ≤ l.length) :
    __find_hook_idx hid (insertAt l i h) = some i := by
  induction l generalizing i with
  | nil =>
    cases i with
    | zero => simp [insertAt, __find_hook_idx, hh]
    | succ n => simp at hi
  | cons x xs ih =>
    have hx : x.id ≠ hid :=
      (find_hook_idx_eq_none_iff hid (x :: xs)).mp hnone x (List.mem_cons_self x xs)
    have hxs : __find_hook_idx hid xs = none := by
      rw [find_hook_idx_eq_none_iff]
      intro e he
      exact (find_hook_idx_eq_none_iff hid (x :: xs)).mp hnone e (List.mem_cons_of_mem x he)
    cases i with
    | zero => simp [insertAt, __find_hook_idx, hh]
    | succ n =>
      have hstep : insertAt (x :: xs) (n + 1) h = x :: insertAt xs n h := rfl
      rw [hstep, __find_hook_idx, if_neg hx, ih n hxs (Nat.le_of_succ_le_succ hi)]
      rfl

theorem find_hook_idx_set (hid : String) (l : List Hook) (i : Nat) (h : Hook)
    (hfind : __find_hook_idx hid l = some i) (hh : h.id = hid) :
    __find_hook_idx hid (l.set i h) = some i := by
  induction l generalizing i with
  | nil => simp [__find_hook_idx] at hfind
  | cons x xs ih =>
    by_cases hx : x.id = hid
    · rw [__find_hook_idx, if_pos hx] at hfind
      obtain rfl := Option.some.inj hfind
      simp [__find_hook_idx, hh]
    · rw [__find_hook_idx, if_neg hx, Option.map_eq_some'] at hfind
      obtain ⟨k, hk, rfl⟩ := hfind
      have hstep : (x :: xs).set (k + 1) h = x :: xs.set k h := rfl
      rw [hstep, __find_hook_idx, if_neg hx, ih k hk]
      rfl

/-! ## Lemmas about the insertion-index computations -/

theorem det_repo_index_le (hid : String) (l : List RepoDef) :
    _determine_expected_repo_index hid l ≤ l.length := by
  induction l with
  | nil => simp [_determine_expected_repo_index]
  | cons r rs ih =>
    rw [_determine_expected_repo_index]
    split
    · simp only [List.length_cons]
      omega
    · split
      · simp
      · simp only [List.length_cons]
        omega

theorem det_repo_boundary (hid : String) (l : List RepoDef) (r : RepoDef)
    (hget : l[_determine_expected_repo_index hid l]? = some r) :
    r.hooks.length = 1 ∧
      pyStrLe (pyLower hid) (pyLower (hooksHeadId r.hooks)) = true := by
  induction l with
  | nil => simp at hget
  | cons x xs ih =>
    rw [_determine_expected_repo_index] at hget
    by_cases h1 : x.hooks.length ≠ 1
    · rw [if_pos h1, Nat.add_comm] at hget
      exact ih (by simpa using hget)
    · rw [if_neg h1] at hget
      by_cases h2 : pyStrLe (pyLower hid) (pyLower (hooksHeadId x.hooks)) = true
      · rw [if_pos h2] at hget
        simp only [List.getElem?_cons_zero, Option.some.injEq] at hget
        subst hget
        exact ⟨by omega, h2⟩
      · rw [if_neg h2, Nat.add_comm] at hget
        exact ih (by simpa using hget)

theorem det_repo_before (hid : String) (l : List RepoDef) (j : Nat) (r : RepoDef)
    (hj : j < _determine_expected_repo_index hid l) (hget : l[j]? = some r) :
    ¬(r.hooks.length = 1 ∧
        pyStrLe (pyLower hid) (pyLower (hooksHeadId r.hooks)) = true) := by
  induction l generalizing j with
  | nil => simp at hget
  | cons x xs ih =>
    rw [_determine_expected_repo_index] at hj
    by_cases h1 : x.hooks.length ≠ 1
    · rw [if_pos h1] at hj
      cases j with
      | zero =>
        simp only [List.getElem?_cons_zero, Option.some.injEq] at hget
        subst hget
        rintro ⟨hlen, -⟩
        exact h1 hlen
      | succ jj =>
        simp only [List.getElem?_cons_succ] at hget
        exact ih jj (by omega) hget
    · rw [if_neg h1] at hj
      by_cases h2 : pyStrLe (pyLower hid) (pyLower (hooksHeadId x.hooks)) = true
      · rw [if_pos h2] at hj
        exact absurd hj (Nat.not_lt_zero j)
      · rw [if_neg h2] at hj
        cases j with
        | zero =>
          simp only [List.getElem?_cons_zero, Option.some.injEq] at hget
          subst hget
          rintro ⟨-, hle⟩
          exact h2 hle
        | succ jj =>
          simp only [List.getElem?_cons_succ] at hget
          exact ih jj (by omega) hget

theorem det_hook_idx_le (hid : String) (l : List Hook) :
    __determine_expected_hook_idx hid l ≤ l.length := by
  induction l with
  | nil => simp [__determine_expected_hook_idx]
  | cons h hs ih =>
    rw [__determine_expected_hook_idx]
    split
    · simp
    · simp only [List.length_cons]
      omega

theorem det_hook_boundary (hid : String) (l : List Hook) (h : Hook)
    (hget : l[__determine_expected_hook_idx hid l]? = some h) :
    pyStrLt hid h.id = true := by
  induction l with
  | nil => simp at hget
  | cons x xs ih =>
    rw [__determine_expected_hook_idx] at hget
    by_cases hlt : pyStrLt hid x.id = true
    · rw [if_pos hlt] at hget
      simp only [List.getElem?_cons_zero, Option.some.injEq] at hget
      subst hget
      exact hlt
    · rw [if_neg hlt, Nat.add_comm] at hget
      exact ih (by simpa using hget)

theorem det_hook_before (hid : String) (l : List Hook) (j : Nat) (h : Hook)
    (hj : j < __determine_expected_hook_idx hid l) (hget : l[j]? = some h) :
    pyStrLt hid h.id = false := by
  induction l generalizing j with
  | nil => simp at hget
  | cons x xs ih =>
    rw [__determine_expected_hook_idx] at hj
    by_cases hlt : pyStrLt hid x.id = true
    · rw [if_pos hlt] at hj
      exact absurd hj (Nat.not_lt_zero j)
    · rw [if_neg hlt] at hj
      cases j with
      | zero =>
        simp only [List.getElem?_cons_zero, Option.some.injEq] at hget
        subst hget
        simpa using hlt
      | succ jj =>
        simp only [List.getElem?_cons_succ] at hget
        exact ih jj (by omega) hget

/-! ## Equivalence helper lemmas -/

theorem remove_rev_set_rev (e : RepoDef) (v : Option String) :
    remove_rev { e with rev := v } = remove_rev e := rfl

theorem is_equivalent_set_rev (e : RepoDef) (v : Option String) :
    _is_equivalent_repo { e with rev := v } e = true := by
  simp [_is_equivalent_repo, remove_rev]

/-! ## Claim theorems -/

/-- C10: if the pre-commit configuration file does not exist (`fs = none`),
both `update_single_hook_precommit_repo` and `update_precommit_hook` return
without raising any correction, without creating the file and without writing
anything (precommit.py lines 50-51 and 114-115). -/
theorem c10_absent_file_noop (m : String → String → Bool) (expected : RepoDef)
    (url : String) (hook : Hook) :
    update_single_hook_precommit_repo m none expected = (none, none) ∧
      update_precommit_hook m none url hook = (none, none) :=
  ⟨rfl, rfl⟩

/-- C8: if no repo entry of the document matches the given repo URL,
`update_precommit_hook` returns silently: no correction, no insertion, no
write (precommit.py lines 117-119). -/
theorem c8_hook_level_missing_repo_silent (m : String → String → Bool)
    (config : Doc) (url : String) (hook : Hook)
    (hfind : find_repo m url config.repos = none) :
    update_precommit_hook m (some config) url hook = (some config, none) := by
  simp [update_precommit_hook, hfind]

/-- Witness for C8 at a concrete document with one non-matching entry. -/
theorem c8_hook_level_missing_repo_silent_witness :
    update_precommit_hook reSearchLit
        (some { repos := [{ repo := "r/other", rev := none,
                            hooks := [{ id := "x", extra := [] }], extra := [] }],
                blanks := [] })
        "r/target" { id := "h", extra := [] }
      = (some { repos := [{ repo := "r/other", rev := none,
                            hooks := [{ id := "x", extra := [] }], extra := [] }],
                blanks := [] }, none) :=
  c8_hook_level_missing_repo_silent reSearchLit
    { repos := [{ repo := "r/other", rev := none,
                  hooks := [{ id := "x", extra := [] }], extra := [] }],
      blanks := [] }
    "r/target" { id := "h", extra := [] } (by decide)

/-- C9: `find_repo` returns the entry at the smallest index whose repo URL
matches the search pattern (the match predicate models `re.search`), together
with that index, and returns `none` when no entry matches; the iff
characterisation only mentions the entries at indices `≤ i`, so later matching
entries never influence the result (precommit.py lines 31-40). -/
theorem c9_find_repo_first_match (m : String → String → Bool) (p : String)
    (l : List RepoDef) :
    (∀ i r, find_repo m p l = some (i, r) ↔
      (l[i]? = some r ∧ m p r.repo = true ∧
        ∀ j e, j < i → l[j]? = some e → m p e.repo = false)) ∧
    (find_repo m p l = none ↔ ∀ r ∈ l, m p r.repo = false) :=
  ⟨fun i r => find_repo_eq_some_iff m p l i r, find_repo_eq_none_iff m p l⟩

/-- Witness for C9: the first matching entry wins even though a later entry
also matches the pattern. -/
theorem c9_find_repo_first_match_witness :
    find_repo reSearchLit "r/a"
        [{ repo := "r/b", rev := none, hooks := [{ id := "b", extra := [] }], extra := [] },
         { repo := "r/a", rev := none, hooks := [{ id := "a", extra := [] }], extra := [] },
         { repo := "r/a2", rev := none, hooks := [{ id := "c", extra := [] }], extra := [] }]
      = some (1, { repo := "r/a", rev := none,
                   hooks := [{ id := "a", extra := [] }], extra := [] }) := by
  refine ((c9_find_repo_first_match reSearchLit "r/a" _).1 1 _).mpr
    ⟨by decide, by decide, ?_⟩
  intro j e hj hget
  have hj0 : j = 0 := Nat.lt_one_iff.mp hj
  subst hj0
  simp only [List.getElem?_cons_zero, Option.some.injEq] at hget
  subst hget
  decide

/-- C2: the engine treats an existing and an expected entry as equivalent iff
they are equal after removing the `rev` key from both; the `rev` field is
ignored, a difference in any other field makes them non-equivalent, and an
equivalent match produces no rewrite and no correction (precommit.py lines
75-76 and 98-104). -/
theorem c2_equivalence_ignores_rev_only (e x : RepoDef) :
    (_is_equivalent_repo e x = true ↔ remove_rev e = remove_rev x) ∧
    (∀ v w : Option String,
      _is_equivalent_repo { e with rev := v } { x with rev := w } =
        _is_equivalent_repo e x) ∧
    (e.repo ≠ x.repo ∨ e.hooks ≠ x.hooks ∨ e.extra ≠ x.extra →
      _is_equivalent_repo e x = false) ∧
    (∀ (m : String → String → Bool) (config : Doc) (idx : Nat),
      find_repo m e.repo config.repos = some (idx, x) →
      _is_equivalent_repo x e = true →
      update_single_hook_precommit_repo m (some config) e = (some config, none)) := by
  refine ⟨by simp [_is_equivalent_repo], fun v w => rfl, ?_, ?_⟩
  · intro hdiff
    rw [_is_equivalent_repo, decide_eq_false_iff_not]
    intro heq
    have hr := congrArg RepoDef.repo heq
    have hh := congrArg RepoDef.hooks heq
    have he := congrArg RepoDef.extra heq
    simp only [remove_rev] at hr hh he
    rcases hdiff with h | h | h
    · exact h hr
    · exact h hh
    · exact h he
  · intro m config idx hfind heq
    simp [update_single_hook_precommit_repo, hfind, heq]

/-- Witness for C2, the spec's own example: `{repo: X, rev: "v1", hooks:
[{id: h}]}` against expected `{repo: X, hooks: [{id: h}]}` (no rev) is
equivalent and produces no rewrite. -/
theorem c2_equivalence_ignores_rev_only_witness :
    update_single_hook_precommit_repo reSearchLit
        (some { repos := [{ repo := "X", rev := some "v1",
                            hooks := [{ id := "h", extra := [] }], extra := [] }],
                blanks := [] })
        { repo := "X", rev := none, hooks := [{ id := "h", extra := [] }], extra := [] }
      = (some { repos := [{ repo := "X", rev := some "v1",
                            hooks := [{ id := "h", extra := [] }], extra := [] }],
                blanks := [] }, none) :=
  (c2_equivalence_ignores_rev_only
      { repo := "X", rev := none, hooks := [{ id := "h", extra := [] }], extra := [] }
      { repo := "X", rev := some "v1",
        hooks := [{ id := "h", extra := [] }], extra := [] }).2.2.2
    reSearchLit
    { repos := [{ repo := "X", rev := some "v1",
                  hooks := [{ id := "h", extra := [] }], extra := [] }],
      blanks := [] }
    0 (by decide) (by decide)

/-- C3: `_determine_expected_repo_index` returns the first index (in document
order) whose entry is single-hook with hook id case-insensitively `≥` the
expected id, or the length of the list if none qualifies; and the concrete
scenario: inserting hook ids "b-hook", "a-hook", "c-hook" in that call order
into an empty repo list yields document order a-hook, b-hook, c-hook
(precommit.py lines 57-66 and 87-95). -/
theorem c3_insertion_ordering :
    (∀ (hid : String) (l : List RepoDef),
      _determine_expected_repo_index hid l ≤ l.length ∧
      (∀ r, l[_determine_expected_repo_index hid l]? = some r →
        r.hooks.length = 1 ∧
          pyStrLe (pyLower hid) (pyLower (hooksHeadId r.hooks)) = true) ∧
      (∀ j r, j < _determine_expected_repo_index hid l → l[j]? = some r →
        ¬(r.hooks.length = 1 ∧
            pyStrLe (pyLower hid) (pyLower (hooksHeadId r.hooks)) = true))) ∧
    ((update_single_hook_precommit_repo reSearchLit
        (update_single_hook_precommit_repo reSearchLit
          (update_single_hook_precommit_repo reSearchLit
            (some { repos := [], blanks := [] })
            { repo := "r/b", rev := none,
              hooks := [{ id := "b-hook", extra := [] }], extra := [] }).1
          { repo := "r/a", rev := none,
            hooks := [{ id := "a-hook", extra := [] }], extra := [] }).1
        { repo := "r/c", rev := none,
          hooks := [{ id := "c-hook", extra := [] }], extra := [] }).1.map
          (fun d => d.repos.map fun r => hooksHeadId r.hooks)
      = some ["a-hook", "b-hook", "c-hook"]) := by
  constructor
  · intro hid l
    exact ⟨det_repo_index_le hid l, fun r hget => det_repo_boundary hid l r hget,
      fun j r hj hget => det_repo_before hid l j r hj hget⟩
  · decide

/-- Witness for C3: at a concrete list whose only entry is single-hook with id
"b-hook", the computed boundary entry for expected id "a-hook" is that entry
and it qualifies. -/
theorem c3_insertion_ordering_witness :
    ({ repo := "r/b", rev := none, hooks := [{ id := "b-hook", extra := [] }],
       extra := [] } : RepoDef).hooks.length = 1 ∧
      pyStrLe (pyLower "a-hook")
        (pyLower (hooksHeadId
          ({ repo := "r/b", rev := none,
             hooks := [{ id := "b-hook", extra := [] }],
             extra := [] } : RepoDef).hooks)) = true :=
  (c3_insertion_ordering.1 "a-hook"
      [{ repo := "r/b", rev := none, hooks := [{ id := "b-hook", extra := [] }],
         extra := [] }]).2.1
    { repo := "r/b", rev := none, hooks := [{ id := "b-hook", extra := [] }],
      extra := [] } (by decide)

/-- C4 counterexample: the claim quantifies over both cited insertion-index
computations, but the editorconfig checker's private
`__determine_expected_index` (editorconfig.py lines 78-84) has no single-hook
guard: at this document it chooses the entry with two hooks as the alphabetic
insertion boundary because its first hook id "zzz" is `≥`
"editorconfig-checker". -/
theorem c4_counterexample_editorconfig_multi_hook_boundary :
    __determine_expected_index
        [{ repo := "r/m", rev := none,
           hooks := [{ id := "zzz", extra := [] }, { id := "aaa", extra := [] }],
           extra := [] }] = 0 ∧
      ([{ repo := "r/m", rev := none,
          hooks := [{ id := "zzz", extra := [] }, { id := "aaa", extra := [] }],
          extra := [] }] : List RepoDef)[0]?.map (fun r => r.hooks.length)
        = some 2 := by
  decide

/-- C4 (amended): the shared engine's `_determine_expected_repo_index`
(precommit.py lines 87-95) never chooses an entry whose hook list has length
other than one as the insertion boundary; the editorconfig checker's private
copy `__determine_expected_index` lacks the guard and can. -/
theorem c4_engine_boundary_is_single_hook (hid : String) (l : List RepoDef)
    (r : RepoDef) (hget : l[_determine_expected_repo_index hid l]? = some r) :
    r.hooks.length = 1 :=
  (det_repo_boundary hid l r hget).1

/-- Witness for C4: the engine skips the two-hook entry and lands on the
single-hook one. -/
theorem c4_engine_boundary_is_single_hook_witness :
    ({ repo := "r/s", rev := none, hooks := [{ id := "b-hook", extra := [] }],
       extra := [] } : RepoDef).hooks.length = 1 :=
  c4_engine_boundary_is_single_hook "a-hook"
    [{ repo := "r/m", rev := none,
       hooks := [{ id := "zzz", extra := [] }, { id := "aaa", extra := [] }],
       extra := [] },
     { repo := "r/s", rev := none, hooks := [{ id := "b-hook", extra := [] }],
       extra := [] }]
    { repo := "r/s", rev := none, hooks := [{ id := "b-hook", extra := [] }],
      extra := [] } (by decide)

/-- C6 counterexample: the hook-level insertion-index computation
`__determine_expected_hook_idx` (precommit.py lines 150-154) compares raw ids
without `.lower()`: the case-equal expected ids "a" and "A" get different
insertion indices against the hook list `[{id: "B"}]`, so the hook-level
ordering comparison is not case-insensitive. -/
theorem c6_counterexample_hook_level_case_sensitive :
    pyLower "a" = pyLower "A" ∧
      __determine_expected_hook_idx "a" [{ id := "B", extra := [] }] = 1 ∧
      __determine_expected_hook_idx "A" [{ id := "B", extra := [] }] = 0 := by
  decide

/-- C6 (amended): the repo-level insertion-index computation is
case-insensitive (it depends only on the lowercased expected id and the
lowercased first-hook ids and hook counts of the entries), while the
hook-level insertion-index computation compares ids with the raw, strict
code-point order `>` (no lowercasing). -/
theorem c6_ordering_case_sensitivity :
    (∀ (hid hid' : String) (l l' : List RepoDef),
      pyLower hid = pyLower hid' →
      List.Forall₂ (fun r r' => r.hooks.length = r'.hooks.length ∧
        pyLower (hooksHeadId r.hooks) = pyLower (hooksHeadId r'.hooks)) l l' →
      _determine_expected_repo_index hid l
        = _determine_expected_repo_index hid' l') ∧
    (∀ (hid : String) (l : List Hook),
      (∀ h, l[__determine_expected_hook_idx hid l]? = some h →
        pyStrLt hid h.id = true) ∧
      (∀ j h, j < __determine_expected_hook_idx hid l → l[j]? = some h →
        pyStrLt hid h.id = false)) := by
  constructor
  · intro hid hid' l l' hhid hall
    induction hall with
    | nil => rfl
    | cons hrel htail ih =>
      rw [_determine_expected_repo_index, _determine_expected_repo_index,
        hrel.1, hhid, hrel.2, ih]
  · intro hid l
    exact ⟨fun h hget => det_hook_boundary hid l h hget,
      fun j h hj hget => det_hook_before hid l j h hj hget⟩

/-- Witness for C6 (amended): case variants of the expected id and of the
entry ids give the same repo-level insertion index. -/
theorem c6_ordering_case_sensitivity_witness :
    _determine_expected_repo_index "A-Hook"
        [{ repo := "r/b", rev := none, hooks := [{ id := "B-Hook", extra := [] }],
           extra := [] }]
      = _determine_expected_repo_index "a-hook"
        [{ repo := "r/b", rev := none, hooks := [{ id := "b-hook", extra := [] }],
           extra := [] }] :=
  c6_ordering_case_sensitivity.1 "A-Hook" "a-hook"
    [{ repo := "r/b", rev := none, hooks := [{ id := "B-Hook", extra := [] }],
       extra := [] }]
    [{ repo := "r/b", rev := none, hooks := [{ id := "b-hook", extra := [] }],
       extra := [] }]
    (by decide)
    (List.Forall₂.cons ⟨by decide, by decide⟩ List.Forall₂.nil)

/-- C5 counterexample: the code's guard is `existing_rev is not None`
(precommit.py lines 77-79), so an existing pin that is present but the EMPTY
string is still copied onto the rewritten entry, while the claim's
"unless the existing pin is itself empty/absent" requires the expected
descriptor's absent-pin placeholder to survive (rewritten `rev` = absent).
Here the existing entry has `rev: ""` and differs only in a non-pin field,
and the rewritten entry carries `rev: ""` rather than no `rev`. -/
theorem c5_counterexample_empty_pin_copied :
    (update_single_hook_precommit_repo reSearchLit
        (some { repos := [{ repo := "u", rev := some "",
                            hooks := [{ id := "h", extra := [("args", "old")] }],
                            extra := [] }],
                blanks := [] })
        { repo := "u", rev := none, hooks := [{ id := "h", extra := [] }],
          extra := [] }).1
      = some { repos := [{ repo := "u", rev := some "",
                           hooks := [{ id := "h", extra := [] }], extra := [] }],
               blanks := [1] } ∧
      (some "" : Option String) ≠ none := by
  decide

/-- C5 (amended): when a matching entry is found and is not equivalent, the
rewritten entry carries the existing entry's `rev` whenever that key is
present — including a present-but-empty pin — and keeps the expected
descriptor's absent pin only when the existing key is absent; in particular a
non-empty existing pin appears unchanged in the replacement entry
(precommit.py lines 75-84). -/
theorem c5_rev_preservation (m : String → String → Bool) (config : Doc)
    (expected : RepoDef) (idx : Nat) (existing : RepoDef)
    (hfind : find_repo m expected.repo config.repos = some (idx, existing))
    (hne : _is_equivalent_repo existing expected = false)
    (hrev : expected.rev = none) :
    ∃ d', (update_single_hook_precommit_repo m (some config) expected).1 = some d' ∧
      (∀ r, existing.rev = some r →
        d'.repos[idx]? = some { expected with rev := some r }) ∧
      (existing.rev = none → d'.repos[idx]? = some expected) := by
  have hidx : idx < config.repos.length := by
    obtain ⟨hget, -, -⟩ :=
      (find_repo_eq_some_iff m expected.repo config.repos idx existing).mp hfind
    exact (List.getElem?_eq_some.mp hget).1
  cases hex : existing.rev with
  | none =>
    refine ⟨{ repos := config.repos.set idx expected,
              blanks := setBlank config.blanks (idx + 1) }, ?_, ?_, ?_⟩
    · simp [update_single_hook_precommit_repo, copy_rev, hfind, hne, hex]
    · intro r hr
      simp at hr
    · intro _
      exact getElem?_set_self config.repos idx expected hidx
  | some r0 =>
    refine ⟨{ repos := config.repos.set idx { expected with rev := some r0 },
              blanks := setBlank config.blanks (idx + 1) }, ?_, ?_, ?_⟩
    · simp [update_single_hook_precommit_repo, copy_rev, hfind, hne, hex]
    · intro r hr
      obtain rfl := Option.some.inj hr
      exact getElem?_set_self config.repos idx _ hidx
    · intro hno
      simp at hno

/-- Witness for C5: a non-empty existing pin "v1" with a non-pin difference is
preserved in the replacement entry. -/
theorem c5_rev_preservation_witness :
    ((update_single_hook_precommit_repo reSearchLit
        (some { repos := [{ repo := "u", rev := some "v1",
                            hooks := [{ id := "h", extra := [("args", "old")] }],
                            extra := [] }],
                blanks := [] })
        { repo := "u", rev := none, hooks := [{ id := "h", extra := [] }],
          extra := [] }).1.map (fun d => d.repos[0]?))
      = some (some { repo := "u", rev := some "v1",
                     hooks := [{ id := "h", extra := [] }], extra := [] }) := by
  obtain ⟨d', hd, hsome, -⟩ := c5_rev_preservation reSearchLit
    { repos := [{ repo := "u", rev := some "v1",
                  hooks := [{ id := "h", extra := [("args", "old")] }],
                  extra := [] }],
      blanks := [] }
    { repo := "u", rev := none, hooks := [{ id := "h", extra := [] }],
      extra := [] }
    0
    { repo := "u", rev := some "v1",
      hooks := [{ id := "h", extra := [("args", "old")] }], extra := [] }
    (by decide) (by decide) rfl
  rw [hd, Option.map_some', hsome "v1" rfl]

/-- C7: after an insertion the blank-line-before directive is set on the entry
that now follows the insertion, or on the new entry itself when it becomes the
last entry; after a replacement it is set on the index following the mutated
one (precommit.py lines 61-65 and 80-81). -/
theorem c7_blank_line_directive (m : String → String → Bool) (config : Doc)
    (expected : RepoDef) :
    (∀ d', find_repo m expected.repo config.repos = none →
      (update_single_hook_precommit_repo m (some config) expected).1 = some d' →
      ((_determine_expected_repo_index (hooksHeadId expected.hooks) config.repos
            < config.repos.length →
          _determine_expected_repo_index (hooksHeadId expected.hooks) config.repos
              + 1 ∈ d'.blanks) ∧
       (_determine_expected_repo_index (hooksHeadId expected.hooks) config.repos
            = config.repos.length →
          _determine_expected_repo_index (hooksHeadId expected.hooks) config.repos
            ∈ d'.blanks))) ∧
    (∀ d' idx existing,
      find_repo m expected.repo config.repos = some (idx, existing) →
      _is_equivalent_repo existing expected = false →
      (update_single_hook_precommit_repo m (some config) expected).1 = some d' →
      idx + 1 ∈ d'.blanks) := by
  constructor
  · intro d' hnone hd
    simp only [update_single_hook_precommit_repo, hnone, Option.some.injEq] at hd
    subst hd
    constructor
    · intro hlt
      simp only [insertAt_length]
      rw [if_neg (by omega)]
      exact mem_setBlank_self _ _
    · intro heq
      simp only [insertAt_length]
      rw [if_pos (by omega)]
      exact mem_setBlank_self _ _
  · intro d' idx existing hfind hne hd
    simp only [update_single_hook_precommit_repo, hfind, hne,
      Bool.false_eq_true, if_false, Option.some.injEq] at hd
    subst hd
    exact mem_setBlank_self _ _

/-- Witness for C7: inserting into an empty repo list makes the new entry the
last one, and the directive lands on the new entry itself (index 0). -/
theorem c7_blank_line_directive_witness :
    (0 : Nat) ∈ Doc.blanks
      { repos := [{ repo := "r/b", rev := some "",
                    hooks := [{ id := "b-hook", extra := [] }], extra := [] }],
        blanks := [0] } :=
  ((c7_blank_line_directive reSearchLit { repos := [], blanks := [] }
      { repo := "r/b", rev := none, hooks := [{ id := "b-hook", extra := [] }],
        extra := [] }).1
    { repos := [{ repo := "r/b", rev := some "",
                  hooks := [{ id := "b-hook", extra := [] }], extra := [] }],
      blanks := [0] }
    (by decide) (by decide)).2 (by decide)

/-! ## Helper lemmas for idempotence -/

theorem is_equivalent_repo_self (e : RepoDef) : _is_equivalent_repo e e = true := by
  simp [_is_equivalent_repo]

theorem ensure_rev_placeholder_repo (e : RepoDef) :
    (ensure_rev_placeholder e).repo = e.repo := by
  unfold ensure_rev_placeholder
  split <;> rfl

theorem is_equivalent_ensure_rev (e : RepoDef) :
    _is_equivalent_repo (ensure_rev_placeholder e) e = true := by
  unfold ensure_rev_placeholder
  split
  · exact is_equivalent_set_rev e (some "")
  · exact is_equivalent_repo_self e

theorem copy_rev_repo (ex e : RepoDef) : (copy_rev ex e).repo = e.repo := by
  unfold copy_rev
  cases ex.rev <;> rfl

theorem is_equivalent_copy_rev (ex e : RepoDef) :
    _is_equivalent_repo (copy_rev ex e) e = true := by
  unfold copy_rev
  cases ex.rev with
  | none => exact is_equivalent_repo_self e
  | some r => exact is_equivalent_set_rev e (some r)

theorem single_hook_idem_aux (m : String → String → Bool) (config : Doc)
    (expected : RepoDef) (hm : m expected.repo expected.repo = true) :
    update_single_hook_precommit_repo m
        (update_single_hook_precommit_repo m (some config) expected).1 expected
      = ((update_single_hook_precommit_repo m (some config) expected).1, none) := by
  cases hfind : find_repo m expected.repo config.repos with
  | none =>
    have hle := det_repo_index_le (hooksHeadId expected.hooks) config.repos
    have hm1 : m expected.repo (ensure_rev_placeholder expected).repo = true := by
      rw [ensure_rev_placeholder_repo]
      exact hm
    simp only [update_single_hook_precommit_repo, hfind]
    rw [find_repo_insertAt m expected.repo config.repos
      (_determine_expected_repo_index (hooksHeadId expected.hooks) config.repos)
      (ensure_rev_placeholder expected) hfind hm1 hle]
    simp [is_equivalent_ensure_rev]
  | some p =>
    obtain ⟨idx, existing⟩ := p
    by_cases heq : _is_equivalent_repo existing expected = true
    · simp only [update_single_hook_precommit_repo, hfind, heq, if_true]
    · have hne : _is_equivalent_repo existing expected = false := by
        simpa using heq
      have hm1 : m expected.repo (copy_rev existing expected).repo = true := by
        rw [copy_rev_repo]
        exact hm
      simp only [update_single_hook_precommit_repo, hfind, hne,
        Bool.false_eq_true, if_false]
      rw [find_repo_set m expected.repo config.repos idx existing
        (copy_rev existing expected) hfind hm1]
      simp [is_equivalent_copy_rev]

theorem hook_level_idem_aux (m : String → String → Bool) (config : Doc)
    (url : String) (hook : Hook) :
    update_precommit_hook m
        (update_precommit_hook m (some config) url hook).1 url hook
      = ((update_precommit_hook m (some config) url hook).1, none) := by
  cases hfind : find_repo m url config.repos with
  | none => simp only [update_precommit_hook, hfind]
  | some p =>
    obtain ⟨ridx, repo⟩ := p
    have hmr : m url repo.repo = true :=
      ((find_repo_eq_some_iff m url config.repos ridx repo).mp hfind).2.1
    cases hfh : __find_hook_idx hook.id repo.hooks with
    | some hidx =>
      by_cases hsame : pyGet repo.hooks hidx = hook
      · simp [update_precommit_hook, hfind, hfh, hsame]
      · have hlt := find_hook_idx_lt_length hook.id repo.hooks hidx hfh
        have hfind2 : find_repo m url
            (config.repos.set ridx { repo with hooks := repo.hooks.set hidx hook })
            = some (ridx, { repo with hooks := repo.hooks.set hidx hook }) :=
          find_repo_set m url config.repos ridx repo
            { repo with hooks := repo.hooks.set hidx hook } hfind hmr
        have hfh2 : __find_hook_idx hook.id (repo.hooks.set hidx hook) = some hidx :=
          find_hook_idx_set hook.id repo.hooks hidx hook hfh rfl
        have hget2 : pyGet (repo.hooks.set hidx hook) hidx = hook :=
          pyGet_set repo.hooks hidx hook hlt
        simp only [update_precommit_hook, hfind, hfh]
        rw [if_neg hsame]
        simp only [update_precommit_hook, hfind2, hfh2]
        rw [if_pos hget2]
    | none =>
      have hle := det_hook_idx_le hook.id repo.hooks
      have hfh2 : __find_hook_idx hook.id
          (insertAt repo.hooks (__determine_expected_hook_idx hook.id repo.hooks) hook)
          = some (__determine_expected_hook_idx hook.id repo.hooks) :=
        find_hook_idx_insertAt hook.id repo.hooks
          (__determine_expected_hook_idx hook.id repo.hooks) hook hfh rfl hle
      have hget2 : pyGet
          (insertAt repo.hooks (__determine_expected_hook_idx hook.id repo.hooks) hook)
          (__determine_expected_hook_idx hook.id repo.hooks) = hook :=
        pyGet_insertAt repo.hooks
          (__determine_expected_hook_idx hook.id repo.hooks) hook hle
      have hfind2 : find_repo m url
          (config.repos.set ridx
            { repo with hooks := insertAt repo.hooks (__determine_expected_hook_idx hook.id repo.hooks) hook })
          = some (ridx,
            { repo with hooks := insertAt repo.hooks (__determine_expected_hook_idx hook.id repo.hooks) hook }) :=
        find_repo_set m url config.repos ridx repo
          { repo with hooks := insertAt repo.hooks (__determine_expected_hook_idx hook.id repo.hooks) hook }
          hfind hmr
      simp only [update_precommit_hook, hfind, hfh]
      simp only [update_precommit_hook, hfind2, hfh2]
      rw [if_pos hget2]

/-- C1: running the reconciliation a second time on the resulting document
with the same expected descriptor is a no-op: no correction is raised and the
document is unchanged — for `update_single_hook_precommit_repo` (under the
assumptions that the expected descriptor is single-hook, as every caller
passes, and that its URL matches itself under the search predicate, as holds
for `re.search` on the literal URLs the callers pass) and likewise for
`update_precommit_hook` (precommit.py lines 43-84 and 107-138). -/
theorem c1_reconciliation_idempotent (m : String → String → Bool)
    (fs : Option Doc) (expected : RepoDef) (url : String) (hook : Hook)
    (hm : m expected.repo expected.repo = true)
    (hh : expected.hooks.length = 1) :
    (update_single_hook_precommit_repo m
        (update_single_hook_precommit_repo m fs expected).1 expected
      = ((update_single_hook_precommit_repo m fs expected).1, none)) ∧
    (update_precommit_hook m
        (update_precommit_hook m fs url hook).1 url hook
      = ((update_precommit_hook m fs url hook).1, none)) := by
  cases fs with
  | none => exact ⟨rfl, rfl⟩
  | some config =>
    exact ⟨single_hook_idem_aux m config expected hm,
      hook_level_idem_aux m config url hook⟩

/-- Witness for C1: a full insert run followed by a second run on the result,
both at concrete inputs. -/
theorem c1_reconciliation_idempotent_witness :
    reSearchLit "r/b" "r/b" = true ∧
    ({ repo := "r/b", rev := none, hooks := [{ id := "b-hook", extra := [] }],
       extra := [] } : RepoDef).hooks.length = 1 ∧
    (update_single_hook_precommit_repo reSearchLit
        (update_single_hook_precommit_repo reSearchLit
          (some { repos := [], blanks := [] })
          { repo := "r/b", rev := none, hooks := [{ id := "b-hook", extra := [] }],
            extra := [] }).1
        { repo := "r/b", rev := none, hooks := [{ id := "b-hook", extra := [] }],
          extra := [] }
      = ((update_single_hook_precommit_repo reSearchLit
          (some { repos := [], blanks := [] })
          { repo := "r/b", rev := none, hooks := [{ id := "b-hook", extra := [] }],
            extra := [] }).1, none)) ∧
    (update_precommit_hook reSearchLit
        (update_precommit_hook reSearchLit (some { repos := [], blanks := [] })
          "r/u" { id := "h", extra := [] }).1
        "r/u" { id := "h", extra := [] }
      = ((update_precommit_hook reSearchLit (some { repos := [], blanks := [] })
          "r/u" { id := "h", extra := [] }).1, none)) := by
  refine ⟨by decide, by decide, ?_, ?_⟩
  · exact (c1_reconciliation_idempotent reSearchLit
      (some { repos := [], blanks := [] })
      { repo := "r/b", rev := none, hooks := [{ id := "b-hook", extra := [] }],
        extra := [] }
      "r/u" { id := "h", extra := [] } (by decide) (by decide)).1
  · exact (c1_reconciliation_idempotent reSearchLit
      (some { repos := [], blanks := [] })
      { repo := "r/b", rev := none, hooks := [{ id := "b-hook", extra := [] }],
        extra := [] }
      "r/u" { id := "h", extra := [] } (by decide) (by decide)).2
